import Mathlib

/-!
Shallow embedding of the zjson pull parser (Rust), restricted to the parts
needed by the claims: the string escape machine with surrogate pairs, the
number machine, the array, object and document drivers, and the lazy
character decoder of parsed strings.

Input text is modelled as a list of characters; the Rust u16 values inside
the escape machines are modelled as Nat with an explicit wrap at 2^16 where
the source shifts.  Fallible Rust functions returning Result become Except or
the PResult type below; a Rust panic is modelled by the PResult.Panic
constructor (respectively by a dedicated constructor of a result type), never
silently replaced by a default value.
-/

namespace Zjson

/-- Embeds status::Status (src/lib/status.rs). -/
inductive Status (M R : Type) where
  | Parsing (m : M)
  | Done (r : R)
deriving DecidableEq, Repr

/-- Result of a Rust function that can return a value, return an error, or
panic.  Rust code paths ending in an expect/unreachable arm map to Panic. -/
inductive PResult (ε α : Type) where
  | Ok (a : α)
  | Error (e : ε)
  | Panic
deriving DecidableEq, Repr

instance {ε α : Type} [DecidableEq ε] [DecidableEq α] : DecidableEq (Except ε α) := fun x y =>
  match x, y with
  | .ok a, .ok b =>
    if h : a = b then isTrue (by rw [h]) else isFalse (fun hh => by cases hh; exact h rfl)
  | .error a, .error b =>
    if h : a = b then isTrue (by rw [h]) else isFalse (fun hh => by cases hh; exact h rfl)
  | .ok _, .error _ => isFalse (fun hh => by cases hh)
  | .error _, .ok _ => isFalse (fun hh => by cases hh)

/-- Embeds Rust char::to_digit(16): hex digit value of a character. -/
def toDigit16 (c : Char) : Option Nat :=
  if '0' ≤ c ∧ c ≤ '9' then some (c.toNat - '0'.toNat)
  else if 'a' ≤ c ∧ c ≤ 'f' then some (c.toNat - 'a'.toNat + 10)
  else if 'A' ≤ c ∧ c ≤ 'F' then some (c.toNat - 'A'.toNat + 10)
  else none

/-- Embeds Rust char::from_u32: defined exactly on Unicode scalar values. -/
def charFromU32 (n : Nat) : Option Char :=
  if Nat.isValidChar n then some (Char.ofNat n) else none

/-- Embeds Rust char::is_whitespace: the Unicode White_Space property. -/
def rustIsWhitespace (c : Char) : Bool :=
  let n := c.toNat
  (0x9 ≤ n && n ≤ 0xD) || n == 0x20 || n == 0x85 || n == 0xA0 || n == 0x1680 ||
    (0x2000 ≤ n && n ≤ 0x200A) || n == 0x2028 || n == 0x2029 || n == 0x202F ||
    n == 0x205F || n == 0x3000

/-- Embeds string::ParseStringError (src/lib/string/error.rs). -/
inductive ParseStringError where
  | UnexpectedEnd
  | InvalidEscape (c : Char)
  | InvalidUnicodeEscape (c : Char)
  | MissingHighSurrogate (low : Nat)
  | MissingLowSurrogate (high : Nat)
  | InvalidLowSurrogate (high : Nat) (low : Nat)
deriving DecidableEq, Repr

/-- Embeds string::machine::LowMachine (src/lib/string/machine.rs). -/
inductive LowMachine where
  | Awaiting
  | AwaitingU
  | Hex (low : Nat) (len : Nat)
deriving DecidableEq, Repr

/-- Embeds string::machine::EscapeMachine (src/lib/string/machine.rs). -/
inductive EscapeMachine where
  | Awaiting
  | Unicode (n : Nat) (len : Nat)
  | Surrogate (high : Nat) (low : LowMachine)
deriving DecidableEq, Repr

/-- Embeds string::machine::Machine (src/lib/string/machine.rs). -/
inductive StringMachine where
  | In
  | Escape (m : EscapeMachine)
deriving DecidableEq, Repr

/-- Embeds LowMachine::apply (src/lib/string/machine.rs lines 96-134).
The u16 shift wraps at 2^16; the hex-digit OR then stays below 2^16.
The source computes high - 0xd800 on u16 after the surrogate range was
established at construction time (high is a high surrogate in every
reachable state), so the Nat truncated subtraction coincides there.
The expect on char::from_u32 is the Panic case. -/
def LowMachine.apply (m : LowMachine) (c : Char) (high : Nat) :
    PResult ParseStringError (Status LowMachine Char) :=
  match m with
  | .Awaiting =>
    if c = '\\' then .Ok (.Parsing .AwaitingU)
    else .Error (.MissingLowSurrogate high)
  | .AwaitingU =>
    if c = 'u' then .Ok (.Parsing (.Hex 0 0))
    else .Error (.MissingLowSurrogate high)
  | .Hex low len =>
    match toDigit16 c with
    | none => .Error (.InvalidUnicodeEscape c)
    | some d =>
      let low2 := ((low <<< 4) % 65536) ||| d
      if len = 3 then
        if 0xdc00 ≤ low2 ∧ low2 < 0xe000 then
          match charFromU32 (((high - 0xd800) <<< 10) + (low2 - 0xdc00) + 0x10000) with
          | some decoded => .Ok (.Done decoded)
          | none => .Panic
        else .Error (.InvalidLowSurrogate high low2)
      else .Ok (.Parsing (.Hex low2 (len + 1)))

/-- Embeds EscapeMachine::apply (src/lib/string/machine.rs lines 34-86). -/
def EscapeMachine.apply (m : EscapeMachine) (c : Char) :
    PResult ParseStringError (Status EscapeMachine Char) :=
  match m with
  | .Awaiting =>
    if c = '"' ∨ c = '\\' ∨ c = '/' then .Ok (.Done c)
    else if c = 'b' then .Ok (.Done '\x08')
    else if c = 'f' then .Ok (.Done '\x0c')
    else if c = 'n' then .Ok (.Done '\n')
    else if c = 'r' then .Ok (.Done '\r')
    else if c = 't' then .Ok (.Done '\t')
    else if c = 'u' then .Ok (.Parsing (.Unicode 0 0))
    else .Error (.InvalidEscape c)
  | .Unicode n len =>
    match toDigit16 c with
    | none => .Error (.InvalidUnicodeEscape c)
    | some d =>
      let n2 := ((n <<< 4) % 65536) ||| d
      if len = 3 then
        match charFromU32 n2 with
        | some decoded => .Ok (.Done decoded)
        | none =>
          if 0xdc00 ≤ n2 then .Error (.MissingHighSurrogate n2)
          else .Ok (.Parsing (.Surrogate n2 .Awaiting))
      else .Ok (.Parsing (.Unicode n2 (len + 1)))
  | .Surrogate high low =>
    match LowMachine.apply low c high with
    | .Panic => .Panic
    | .Error e => .Error e
    | .Ok (.Parsing low2) => .Ok (.Parsing (.Surrogate high low2))
    | .Ok (.Done parsed) => .Ok (.Done parsed)

/-- Embeds string Machine::apply (src/lib/string/machine.rs lines 9-24).
Ok none means the machine terminated at an unescaped closing quote. -/
def StringMachine.apply (m : StringMachine) (c : Char) :
    PResult ParseStringError (Option StringMachine) :=
  match m with
  | .In =>
    if c = '\\' then .Ok (some (.Escape .Awaiting))
    else if c = '"' then .Ok none
    else .Ok (some .In)
  | .Escape em =>
    match em.apply c with
    | .Panic => .Panic
    | .Error e => .Error e
    | .Ok (.Parsing em2) => .Ok (some (.Escape em2))
    | .Ok (.Done _) => .Ok (some .In)

/-- Embeds string::ParsedString (src/lib/string/parsed.rs): a view over the
raw, still-escaped slice between the quotation marks. -/
structure ParsedString where
  json : List Char
deriving DecidableEq, Repr

/-- ParsedString::unescaped: the raw slice itself. -/
def ParsedString.unescaped (p : ParsedString) : List Char :=
  p.json

/-- Loop body of String::get (src/lib/string/mod.rs lines 26-42): run the
machine over the remaining characters; on termination return the characters
before the closing quote and the suffix after it. -/
def stringGetAux (m : StringMachine) : List Char → PResult ParseStringError (List Char × List Char)
  | [] => .Error .UnexpectedEnd
  | c :: rest =>
    match m.apply c with
    | .Panic => .Panic
    | .Error e => .Error e
    | .Ok none => .Ok ([], rest)
    | .Ok (some m2) =>
      match stringGetAux m2 rest with
      | .Ok (p, r) => .Ok (c :: p, r)
      | .Error e => .Error e
      | .Panic => .Panic

/-- Embeds String::get (src/lib/string/mod.rs lines 26-42).  On success the
first component is the ParsedString view handed to the caller and the second
is the slice the parent is advanced to (after the closing quote). -/
def stringGet (input : List Char) : PResult ParseStringError (ParsedString × List Char) :=
  match stringGetAux .In input with
  | .Ok (p, r) => .Ok (⟨p⟩, r)
  | .Error e => .Error e
  | .Panic => .Panic

/-- Runs the string machine over a list while it keeps parsing: some m2 means
no error, no panic and no terminating quote occurred, ending in state m2. -/
def strScan (m : StringMachine) : List Char → Option StringMachine
  | [] => some m
  | c :: rest =>
    match m.apply c with
    | .Ok (some m2) => strScan m2 rest
    | _ => none

/-- One step of string::parsed::Chars::next (src/lib/string/parsed.rs lines
111-154): Panic covers both panic branches of the source (an escape error
surfaced by the expect, and running out of characters mid-escape). -/
inductive CharsStep where
  | Panic
  | Exhausted
  | Yield (c : Char) (rest : List Char)
deriving DecidableEq, Repr

/-- The escape-decoding loop inside Chars::next. -/
def charsEscLoop (m : EscapeMachine) : List Char → CharsStep
  | [] => .Panic
  | c :: rest =>
    match m.apply c with
    | .Panic => .Panic
    | .Error _ => .Panic
    | .Ok (.Parsing m2) => charsEscLoop m2 rest
    | .Ok (.Done r) => .Yield r rest

/-- Embeds Chars::next (src/lib/string/parsed.rs lines 111-154); the iterator
state is the remaining unescaped suffix. -/
def charsNext : List Char → CharsStep
  | [] => .Exhausted
  | c :: rest => if c ≠ '\\' then .Yield c rest else charsEscLoop .Awaiting rest

/-- Outcome of driving the Chars iterator to exhaustion. -/
inductive CharsRun where
  | OutOfFuel
  | HitPanic
  | AllOk
deriving DecidableEq, Repr

/-- Drive Chars::next repeatedly.  Each yield consumes at least one character
of the suffix, so fuel = length + 1 always suffices to reach Exhausted or a
panic; OutOfFuel is an artifact of the embedding, never reached then. -/
def charsRun : Nat → List Char → CharsRun
  | 0, _ => .OutOfFuel
  | fuel + 1, l =>
    match charsNext l with
    | .Panic => .HitPanic
    | .Exhausted => .AllOk
    | .Yield _ rest => charsRun fuel rest

/-- Embeds number::ParseNumberError (src/lib/number/error.rs). -/
inductive ParseNumberError where
  | UnexpectedEnd (or_sign : Bool)
  | UnexpectedEndAfterExponent (or_sign : Bool)
  | ExpectedMinusOrDigit (c : Char)
  | ExpectedDigit (c : Char)
  | ExpectedSignOrDigit (c : Char)
deriving DecidableEq, Repr

/-- Embeds number::machine::Machine (src/lib/number/machine.rs). -/
inductive NumberMachine where
  | Start (signed : Bool)
  | InInteger
  | PostInteger
  | PreFraction
  | Fraction
  | PreExponent (signed : Bool)
  | Exponent
deriving DecidableEq, Repr

/-- Embeds number Machine::apply (src/lib/number/machine.rs lines 16-69). -/
def NumberMachine.apply (m : NumberMachine) (c : Char) :
    Except ParseNumberError (Status NumberMachine Unit) :=
  match m with
  | .Start signed =>
    if c = '-' ∧ signed = false then .ok (.Parsing (.Start true))
    else if '1' ≤ c ∧ c ≤ '9' then .ok (.Parsing .InInteger)
    else if c = '0' then .ok (.Parsing .PostInteger)
    else .error (.ExpectedMinusOrDigit c)
  | .InInteger =>
    if '0' ≤ c ∧ c ≤ '9' then .ok (.Parsing .InInteger)
    else if c = '.' then .ok (.Parsing .PreFraction)
    else if c = 'e' ∨ c = 'E' then .ok (.Parsing (.PreExponent false))
    else .ok (.Done ())
  | .PostInteger =>
    if c = '.' then .ok (.Parsing .PreFraction)
    else if c = 'e' ∨ c = 'E' then .ok (.Parsing (.PreExponent false))
    else .ok (.Done ())
  | .PreFraction =>
    if '0' ≤ c ∧ c ≤ '9' then .ok (.Parsing .Fraction)
    else .error (.ExpectedDigit c)
  | .Fraction =>
    if '0' ≤ c ∧ c ≤ '9' then .ok (.Parsing .Fraction)
    else if c = 'e' ∨ c = 'E' then .ok (.Parsing (.PreExponent false))
    else .ok (.Done ())
  | .PreExponent signed =>
    if (c = '-' ∨ c = '+') ∧ signed = false then .ok (.Parsing (.PreExponent true))
    else if '0' ≤ c ∧ c ≤ '9' then .ok (.Parsing .Exponent)
    else .error (.ExpectedSignOrDigit c)
  | .Exponent =>
    if '0' ≤ c ∧ c ≤ '9' then .ok (.Parsing .Exponent)
    else .ok (.Done ())

/-- Embeds number Machine::valid_end (src/lib/number/machine.rs lines 71-81). -/
def NumberMachine.valid_end : NumberMachine → Except ParseNumberError Unit
  | .InInteger | .PostInteger | .Fraction | .Exponent => .ok ()
  | .Start signed => .error (.UnexpectedEnd !signed)
  | .PreFraction => .error (.UnexpectedEnd false)
  | .PreExponent signed => .error (.UnexpectedEndAfterExponent !signed)

/-- Embeds number::ParsedNumber (src/lib/number/parsed.rs): a view over the
raw digit slice. -/
structure ParsedNumber where
  json : List Char
deriving DecidableEq, Repr

/-- ParsedNumber::as_str (src/lib/number/parsed.rs lines 29-34). -/
def ParsedNumber.as_str (p : ParsedNumber) : List Char :=
  p.json

/-- Loop body of Number::get (src/lib/number/mod.rs lines 25-49): walk the
machine; Done at a character leaves that character (and everything after it)
as the parent's remaining slice; end of input consults valid_end. -/
def numberGetAux (m : NumberMachine) : List Char → Except ParseNumberError (List Char × List Char)
  | [] =>
    match m.valid_end with
    | .ok _ => .ok ([], [])
    | .error e => .error e
  | c :: rest =>
    match m.apply c with
    | .error e => .error e
    | .ok (.Done _) => .ok ([], c :: rest)
    | .ok (.Parsing m2) =>
      match numberGetAux m2 rest with
      | .ok (p, r) => .ok (c :: p, r)
      | .error e => .error e

/-- Embeds Number::get (src/lib/number/mod.rs lines 25-49): on success the
first component is the ParsedNumber view over the consumed prefix and the
second is the slice the parent is advanced to. -/
def numberGet (input : List Char) : Except ParseNumberError (ParsedNumber × List Char) :=
  match numberGetAux (.Start false) input with
  | .ok (p, r) => .ok (⟨p⟩, r)
  | .error e => .error e

/-- Runs the number machine over a list while it keeps parsing. -/
def numScan (m : NumberMachine) : List Char → Option NumberMachine
  | [] => some m
  | c :: rest =>
    match m.apply c with
    | .ok (.Parsing m2) => numScan m2 rest
    | _ => none

/-- Embeds containers::ParsePrompt (src/lib/containers.rs). -/
inductive ParsePrompt where
  | String
  | Number
  | Object
  | Array
  | Literal
deriving DecidableEq, Repr

/-- Embeds ParsePrompt::get (src/lib/containers.rs lines 23-33). -/
def ParsePrompt.get (c : Char) : Option ParsePrompt :=
  if c = '"' then some .String
  else if ('0' ≤ c ∧ c ≤ '9') ∨ c = '-' then some .Number
  else if c = '{' then some .Object
  else if c = '[' then some .Array
  else if c = 't' ∨ c = 'f' ∨ c = 'n' then some .Literal
  else none

/-- Embeds ParsePrompt::keep_first (src/lib/containers.rs lines 36-38). -/
def ParsePrompt.keep_first : ParsePrompt → Bool
  | .Number | .Literal => true
  | _ => false

/-- Embeds containers::ParseStatus (src/lib/containers.rs). -/
inductive ParseStatus where
  | Prompted (p : ParsePrompt)
  | Done
deriving DecidableEq, Repr

/-- Embeds array::ParseArrayError (src/lib/array/error.rs). -/
inductive ParseArrayError where
  | UnexpectedEnd
  | InvalidElement (c : Char) (or_end : Bool)
  | ExpectedCommaOrEnd (c : Char)
  | TrailingComma
deriving DecidableEq, Repr

/-- Embeds array::machine::Machine (src/lib/array/machine.rs). -/
inductive ArrayMachine where
  | In (postcomma : Bool)
  | Element (status : ParseStatus)
  | End
deriving DecidableEq, Repr

/-- Embeds array Machine::apply (src/lib/array/machine.rs lines 13-45); the
catch-all panicking arm of the source is the Panic case. -/
def ArrayMachine.apply (m : ArrayMachine) (c : Char) : PResult ParseArrayError ArrayMachine :=
  match m with
  | .In postcomma =>
    if rustIsWhitespace c then .Ok (.In postcomma)
    else if c = ']' then
      if postcomma then .Error .TrailingComma else .Ok .End
    else
      match ParsePrompt.get c with
      | some prompt => .Ok (.Element (.Prompted prompt))
      | none => .Error (.InvalidElement c !postcomma)
  | .Element .Done =>
    if rustIsWhitespace c then .Ok (.Element .Done)
    else if c = ',' then .Ok (.In true)
    else if c = ']' then .Ok .End
    else .Error (.ExpectedCommaOrEnd c)
  | _ => .Panic

/-- The mutable fields of an array::Array cursor (src/lib/array/mod.rs):
its machine and its remaining slice. -/
structure ArrayState where
  machine : ArrayMachine
  remaining : List Char
deriving DecidableEq, Repr

/-- Observable outcome of one Array::next call.  Yield carries the prompt of
the child cursor created over the state's remaining slice; Finished carries
the remaining slice handed to the parent via set_remaining; Error carries the
error together with the cursor state left behind. -/
inductive ArrayNextResult where
  | Yield (prompt : ParsePrompt) (state : ArrayState)
  | Finished (remaining : List Char)
  | Error (e : ParseArrayError) (state : ArrayState)
  | Panicked
deriving DecidableEq, Repr

/-- Loop of Array::next (src/lib/array/mod.rs lines 52-85), with the
post-transition iterations that immediately return (a freshly prompted
element, or End) unrolled into the step that produced them: a prompted
element with keep_first retains the dispatching character, otherwise the
character is consumed before the child is created. -/
def arrayGo (m : ArrayMachine) : List Char → ArrayNextResult
  | [] => .Error .UnexpectedEnd ⟨m, []⟩
  | c :: rest =>
    match m.apply c with
    | .Panic => .Panicked
    | .Error e => .Error e ⟨m, c :: rest⟩
    | .Ok m2 =>
      match m2 with
      | .Element (.Prompted p) =>
        if p.keep_first then .Yield p ⟨.Element (.Prompted p), c :: rest⟩
        else .Yield p ⟨.Element (.Prompted p), rest⟩
      | .End => .Finished rest
      | .In pc => arrayGo (.In pc) rest
      | .Element .Done => arrayGo (.Element .Done) rest

/-- Embeds Array::next (src/lib/array/mod.rs lines 52-85). -/
def arrayNext (st : ArrayState) : ArrayNextResult :=
  match st with
  | ⟨.Element (.Prompted p), rem⟩ => .Yield p ⟨.Element (.Prompted p), rem⟩
  | ⟨.End, rem⟩ => .Finished rem
  | ⟨.In pc, rem⟩ => arrayGo (.In pc) rem
  | ⟨.Element .Done, rem⟩ => arrayGo (.Element .Done) rem

/-- Embeds the Parent impl for Array (src/lib/array/mod.rs lines 20-34):
store the new remaining slice and demote a prompted element to Done. -/
def arraySetRemaining (st : ArrayState) (rem : List Char) : ArrayState :=
  ⟨match st.machine with
    | .Element _ => .Element .Done
    | m => m, rem⟩

/-- Embeds object::ParseObjectError (src/lib/object/error.rs). -/
inductive ParseObjectError where
  | UnexpectedEnd
  | ExpectedName (c : Char) (or_end : Bool)
  | InvalidName (e : ParseStringError)
  | ExpectedColon (c : Char)
  | InvalidElement (c : Char)
  | ExpectedCommaOrEnd (c : Char)
  | TrailingComma
deriving DecidableEq, Repr

/-- Embeds object::machine::Machine (src/lib/object/machine.rs). -/
inductive ObjectMachine where
  | In (postcomma : Bool)
  | Name (name : Option ParsedString)
  | PreElement (name : ParsedString)
  | Element (name : ParsedString) (element : ParseStatus)
  | End
deriving DecidableEq, Repr

/-- Embeds object Machine::apply (src/lib/object/machine.rs lines 25-81); the
catch-all panicking arm of the source is the Panic case. -/
def ObjectMachine.apply (m : ObjectMachine) (c : Char) : PResult ParseObjectError ObjectMachine :=
  match m with
  | .In postcomma =>
    if rustIsWhitespace c then .Ok (.In postcomma)
    else if c = '"' then .Ok (.Name none)
    else if c = '}' then
      if postcomma then .Error .TrailingComma else .Ok .End
    else .Error (.ExpectedName c !postcomma)
  | .Name (some name) =>
    if rustIsWhitespace c then .Ok (.Name (some name))
    else if c = ':' then .Ok (.PreElement name)
    else .Error (.ExpectedColon c)
  | .PreElement name =>
    if rustIsWhitespace c then .Ok (.PreElement name)
    else
      match ParsePrompt.get c with
      | some prompt => .Ok (.Element name (.Prompted prompt))
      | none => .Error (.InvalidElement c)
  | .Element name .Done =>
    if rustIsWhitespace c then .Ok (.Element name .Done)
    else if c = ',' then .Ok (.In true)
    else if c = '}' then .Ok .End
    else .Error (.ExpectedCommaOrEnd c)
  | _ => .Panic

/-- The mutable fields of an object::Object cursor (src/lib/object/mod.rs). -/
structure ObjectState where
  machine : ObjectMachine
  remaining : List Char
deriving DecidableEq, Repr

/-- Observable outcome of one Object::next call; as for arrays, with the
parsed key carried alongside the child prompt.  OutOfFuel is an artifact of
the fuel-indexed embedding below and is never reached with initial fuel. -/
inductive ObjectNextResult where
  | Yield (name : ParsedString) (prompt : ParsePrompt) (state : ObjectState)
  | Finished (remaining : List Char)
  | Error (e : ParseObjectError) (state : ObjectState)
  | Panicked
  | OutOfFuel
deriving DecidableEq, Repr

/-- Loop of Object::next (src/lib/object/mod.rs lines 54-108), unrolled as
for arrays.  A Name none state eagerly runs String::get on the remaining
slice: success stores the key and advances (the String child's set_remaining
call touches no element status because the machine is in Name), failure is
wrapped as InvalidName.  Every loop iteration consumes at least one
character, so fuel = length + 1 always suffices. -/
def objectGo : Nat → ObjectMachine → List Char → ObjectNextResult
  | 0, _, _ => .OutOfFuel
  | fuel + 1, m, rem =>
    match m with
    | .Element name (.Prompted p) => .Yield name p ⟨.Element name (.Prompted p), rem⟩
    | .End => .Finished rem
    | .Name none =>
      match stringGet rem with
      | .Panic => .Panicked
      | .Error e => .Error (.InvalidName e) ⟨.Name none, rem⟩
      | .Ok (nm, rest) => objectGo fuel (.Name (some nm)) rest
    | m =>
      match rem with
      | [] => .Error .UnexpectedEnd ⟨m, []⟩
      | c :: rest =>
        match m.apply c with
        | .Panic => .Panicked
        | .Error e => .Error e ⟨m, c :: rest⟩
        | .Ok m2 =>
          match m2 with
          | .Element name (.Prompted p) =>
            if p.keep_first then .Yield name p ⟨.Element name (.Prompted p), c :: rest⟩
            else .Yield name p ⟨.Element name (.Prompted p), rest⟩
          | .End => .Finished rest
          | m2 => objectGo fuel m2 rest

/-- Embeds Object::next (src/lib/object/mod.rs lines 54-108). -/
def objectNext (st : ObjectState) : ObjectNextResult :=
  objectGo (st.remaining.length + 1) st.machine st.remaining

/-- Embeds the Parent impl for Object (src/lib/object/mod.rs lines 21-35). -/
def objectSetRemaining (st : ObjectState) (rem : List Char) : ObjectState :=
  ⟨match st.machine with
    | .Element name _ => .Element name .Done
    | m => m, rem⟩

/-- Embeds document::ParseDocumentError (src/lib/document/error.rs). -/
inductive ParseDocumentError where
  | UnexpectedEnd
  | InvalidElement (c : Char)
  | UnexpectedCharacter (c : Char)
deriving DecidableEq, Repr

/-- The fields of a document::Document (src/lib/document/mod.rs). -/
structure DocState where
  remaining : List Char
  parse_status : Option ParseStatus
deriving DecidableEq, Repr

/-- Observable outcome of one Document::next call. -/
inductive DocNextResult where
  | Yield (prompt : ParsePrompt) (state : DocState)
  | Finished (state : DocState)
  | Error (e : ParseDocumentError) (state : DocState)
deriving DecidableEq, Repr

/-- Loop of Document::next (src/lib/document/mod.rs lines 50-87) after the
parse status resolved to the end flag (false for None, true for Done); the
status only changes when a prompt is found, which yields on the next
iteration, unrolled here as for arrays. -/
def docGo (isEnd : Bool) : List Char → DocNextResult
  | [] =>
    if isEnd then .Finished ⟨[], some .Done⟩
    else .Error .UnexpectedEnd ⟨[], none⟩
  | c :: rest =>
    if rustIsWhitespace c then docGo isEnd rest
    else if isEnd then .Error (.UnexpectedCharacter c) ⟨c :: rest, some .Done⟩
    else
      match ParsePrompt.get c with
      | some p =>
        if p.keep_first then .Yield p ⟨c :: rest, some (.Prompted p)⟩
        else .Yield p ⟨rest, some (.Prompted p)⟩
      | none => .Error (.InvalidElement c) ⟨c :: rest, none⟩

/-- Embeds Document::next (src/lib/document/mod.rs lines 50-87). -/
def docNext (st : DocState) : DocNextResult :=
  match st with
  | ⟨rem, some (.Prompted p)⟩ => .Yield p ⟨rem, some (.Prompted p)⟩
  | ⟨rem, none⟩ => docGo false rem
  | ⟨rem, some .Done⟩ => docGo true rem

/-- Embeds the Parent impl for Document (src/lib/document/mod.rs lines
17-29): store the new remaining slice and mark the child Done. -/
def docSetRemaining (_st : DocState) (rem : List Char) : DocState :=
  ⟨rem, some .Done⟩

/-! Helper lemmas about the string machine. -/

theorem stringApply_ok_none {m : StringMachine} {c : Char}
    (h : m.apply c = .Ok none) : c = '"' ∧ m = .In := by
  cases m with
  | In =>
    simp only [StringMachine.apply] at h
    split_ifs at h with h1 h2
    · cases h
    · exact ⟨h2, rfl⟩
    · cases h
  | Escape em =>
    simp only [StringMachine.apply] at h
    split at h <;> simp_all

theorem stringGetAux_ok {input : List Char} : ∀ {m : StringMachine} {p r : List Char},
    stringGetAux m input = .Ok (p, r) → input = p ++ '"' :: r ∧ strScan m p = some .In := by
  induction input with
  | nil => intro m p r h; cases h
  | cons c rest ih =>
    intro m p r h
    simp only [stringGetAux] at h
    split at h
    · cases h
    · cases h
    · rename_i heq
      obtain ⟨hc, hmIn⟩ := stringApply_ok_none heq
      simp only [PResult.Ok.injEq, Prod.mk.injEq] at h
      obtain ⟨hp, hr⟩ := h
      subst hp; subst hr; subst hc; subst hmIn
      exact ⟨rfl, rfl⟩
    · rename_i m2 heq
      split at h
      · rename_i p2 r2 hrec
        simp only [PResult.Ok.injEq, Prod.mk.injEq] at h
        obtain ⟨hp, hr⟩ := h
        subst hp; subst hr
        obtain ⟨h1, h2⟩ := ih hrec
        subst h1
        refine ⟨rfl, ?_⟩
        simp only [strScan, heq]
        exact h2
      · cases h
      · cases h

theorem strScan_unexpectedEnd {input : List Char} : ∀ {m mf : StringMachine},
    strScan m input = some mf → stringGetAux m input = .Error .UnexpectedEnd := by
  induction input with
  | nil => intro m mf _; rfl
  | cons c rest ih =>
    intro m mf h
    simp only [strScan] at h
    split at h
    · rename_i m2 heq
      simp only [stringGetAux, heq]
      rw [ih h]
    · cases h

/-- A successful String::get consumes at least the closing quote. -/
theorem stringGet_shrinks {input : List Char} {ps : ParsedString} {rem : List Char}
    (h : stringGet input = .Ok (ps, rem)) : rem.length < input.length := by
  simp only [stringGet] at h
  split at h
  · rename_i p r haux
    simp only [PResult.Ok.injEq, Prod.mk.injEq] at h
    obtain ⟨_, hr⟩ := h
    subst hr
    have := (stringGetAux_ok haux).1
    subst this
    simp
    omega
  · cases h
  · cases h

theorem charsEscLoop_yield_length {l : List Char} : ∀ {m : EscapeMachine} {ch : Char}
    {rest : List Char}, charsEscLoop m l = .Yield ch rest → rest.length < l.length := by
  induction l with
  | nil => intro m ch rest h; cases h
  | cons c t ih =>
    intro m ch rest h
    simp only [charsEscLoop] at h
    split at h
    · cases h
    · cases h
    · exact Nat.lt_trans (ih h) (by simp)
    · cases h; simp

theorem strScan_escape_yield {l : List Char} : ∀ {em : EscapeMachine},
    strScan (.Escape em) l = some .In →
    ∃ ch rest, charsEscLoop em l = .Yield ch rest ∧ strScan .In rest = some .In := by
  induction l with
  | nil => intro em h; simp [strScan] at h
  | cons c t ih =>
    intro em h
    simp only [strScan, StringMachine.apply] at h
    split at h
    · rename_i m2 heq
      split at heq
      · cases heq
      · cases heq
      · rename_i em2 hm
        cases heq
        obtain ⟨ch, rest, h1, h2⟩ := ih h
        refine ⟨ch, rest, ?_, h2⟩
        simp only [charsEscLoop, hm]
        exact h1
      · rename_i r hm
        cases heq
        refine ⟨r, t, ?_, h⟩
        simp only [charsEscLoop, hm]
    · cases h

theorem strScan_charsRun {fuel : Nat} : ∀ {l : List Char}, l.length < fuel →
    strScan .In l = some .In → charsRun fuel l = .AllOk := by
  induction fuel with
  | zero => intro l hlen _; omega
  | succ fuel ih =>
    intro l hlen h
    cases l with
    | nil => rfl
    | cons c t =>
      by_cases hc : c = '\\'
      · subst hc
        have h2 : strScan (.Escape .Awaiting) t = some .In := by
          simpa [strScan, StringMachine.apply] using h
        obtain ⟨ch, rest, hy, hs⟩ := strScan_escape_yield h2
        have hr : rest.length < t.length := charsEscLoop_yield_length hy
        simp only [charsRun, charsNext, ne_eq, not_true_eq_false, if_false, hy]
        exact ih (by simp at hlen; omega) hs
      · by_cases hq : c = '"'
        · exfalso; subst hq
          simp [strScan, StringMachine.apply, hc] at h
        · have h2 : strScan .In t = some .In := by
            simpa [strScan, StringMachine.apply, hc, hq] using h
          simp only [charsRun, charsNext, ne_eq, hc, not_false_eq_true, if_true]
          exact ih (by simp at hlen; omega) h2

/-! Claim theorems for the string machine. -/

/-- C1: after the fourth hex digit of a unicode escape completes the 16-bit
value, a valid scalar is emitted and the machine returns to In; a value in
the low-surrogate range 0xDC00..=0xDFFF is the error MissingHighSurrogate;
a high surrogate enters the Surrogate state; a completed low escape in
[0xDC00, 0xE000) emits exactly 0x10000 + ((high - 0xD800) <<< 10) +
(low - 0xDC00), and one outside that range is InvalidLowSurrogate. -/
theorem c1_unicode_escape_completion :
    (∀ (n : Nat) (c : Char) (d : Nat), toDigit16 c = some d →
      Nat.isValidChar (((n <<< 4) % 65536) ||| d) →
      EscapeMachine.apply (.Unicode n 3) c =
        .Ok (.Done (Char.ofNat (((n <<< 4) % 65536) ||| d))) ∧
      StringMachine.apply (.Escape (.Unicode n 3)) c = .Ok (some .In)) ∧
    (∀ (n : Nat) (c : Char) (d : Nat), toDigit16 c = some d →
      0xdc00 ≤ ((n <<< 4) % 65536) ||| d → ((n <<< 4) % 65536) ||| d ≤ 0xdfff →
      EscapeMachine.apply (.Unicode n 3) c =
        .Error (.MissingHighSurrogate (((n <<< 4) % 65536) ||| d))) ∧
    (∀ (n : Nat) (c : Char) (d : Nat), toDigit16 c = some d →
      0xd800 ≤ ((n <<< 4) % 65536) ||| d → ((n <<< 4) % 65536) ||| d < 0xdc00 →
      EscapeMachine.apply (.Unicode n 3) c =
        .Ok (.Parsing (.Surrogate (((n <<< 4) % 65536) ||| d) .Awaiting))) ∧
    (∀ (high low : Nat) (c : Char) (d : Nat), toDigit16 c = some d →
      0xd800 ≤ high → high < 0xdc00 →
      0xdc00 ≤ ((low <<< 4) % 65536) ||| d → ((low <<< 4) % 65536) ||| d < 0xe000 →
      EscapeMachine.apply (.Surrogate high (.Hex low 3)) c =
        .Ok (.Done (Char.ofNat
          (0x10000 + ((high - 0xd800) <<< 10) + ((((low <<< 4) % 65536) ||| d) - 0xdc00))))) ∧
    (∀ (high low : Nat) (c : Char) (d : Nat), toDigit16 c = some d →
      ¬(0xdc00 ≤ ((low <<< 4) % 65536) ||| d ∧ ((low <<< 4) % 65536) ||| d < 0xe000) →
      EscapeMachine.apply (.Surrogate high (.Hex low 3)) c =
        .Error (.InvalidLowSurrogate high (((low <<< 4) % 65536) ||| d))) := by
  refine ⟨?_, ?_, ?_, ?_, ?_⟩
  · intro n c d hd hv
    constructor
    · simp [EscapeMachine.apply, hd, charFromU32, hv]
    · simp [StringMachine.apply, EscapeMachine.apply, hd, charFromU32, hv]
  · intro n c d hd h1 h2
    have hv : ¬ Nat.isValidChar (((n <<< 4) % 65536) ||| d) := by
      simp only [Nat.isValidChar]; omega
    simp [EscapeMachine.apply, hd, charFromU32, hv, h1]
  · intro n c d hd h1 h2
    have hv : ¬ Nat.isValidChar (((n <<< 4) % 65536) ||| d) := by
      simp only [Nat.isValidChar]; omega
    simp [EscapeMachine.apply, hd, charFromU32, hv]
    omega
  · intro high low c d hd hh1 hh2 hl1 hl2
    have h10 : (high - 0xd800) <<< 10 = (high - 0xd800) * 1024 := by
      rw [Nat.shiftLeft_eq]
    have hv : Nat.isValidChar (((high - 0xd800) <<< 10) +
        ((((low <<< 4) % 65536) ||| d) - 0xdc00) + 0x10000) := by
      rw [Nat.isValidChar, h10]
      omega
    have harith : ((high - 0xd800) <<< 10) + ((((low <<< 4) % 65536) ||| d) - 0xdc00) + 0x10000 =
        0x10000 + ((high - 0xd800) <<< 10) + ((((low <<< 4) % 65536) ||| d) - 0xdc00) := by
      omega
    have hlow := LowMachine.apply.eq_def (.Hex low 3) c high
    rw [hd] at hlow
    simp only [reduceIte] at hlow
    rw [if_pos ⟨hl1, hl2⟩, charFromU32, if_pos hv, harith] at hlow
    simp only [EscapeMachine.apply, hlow]
  · intro high low c d hd hrange
    have hlow := LowMachine.apply.eq_def (.Hex low 3) c high
    rw [hd] at hlow
    simp only [reduceIte] at hlow
    rw [if_neg hrange] at hlow
    simp only [EscapeMachine.apply, hlow]

/-- C1 witness: concrete instances of every branch, including the surrogate
pair D83D DE03 decoding to U+1F603. -/
theorem c1_witness :
    (EscapeMachine.apply (.Unicode 0x004 3) '1' =
        .Ok (.Done (Char.ofNat (((0x004 <<< 4) % 65536) ||| 1))) ∧
      StringMachine.apply (.Escape (.Unicode 0x004 3)) '1' = .Ok (some .In)) ∧
    EscapeMachine.apply (.Unicode 0xdc0 3) '0' =
      .Error (.MissingHighSurrogate (((0xdc0 <<< 4) % 65536) ||| 0)) ∧
    EscapeMachine.apply (.Unicode 0xd83 3) 'D' =
      .Ok (.Parsing (.Surrogate (((0xd83 <<< 4) % 65536) ||| 13) .Awaiting)) ∧
    EscapeMachine.apply (.Surrogate 0xd83d (.Hex 0xde0 3)) '3' =
      .Ok (.Done (Char.ofNat
        (0x10000 + ((0xd83d - 0xd800) <<< 10) + ((((0xde0 <<< 4) % 65536) ||| 3) - 0xdc00)))) ∧
    EscapeMachine.apply (.Surrogate 0xd83d (.Hex 0x004 3)) '1' =
      .Error (.InvalidLowSurrogate 0xd83d (((0x004 <<< 4) % 65536) ||| 1)) :=
  ⟨c1_unicode_escape_completion.1 0x004 '1' 1 (by decide) (by decide),
   c1_unicode_escape_completion.2.1 0xdc0 '0' 0 (by decide) (by decide) (by decide),
   c1_unicode_escape_completion.2.2.1 0xd83 'D' 13 (by decide) (by decide) (by decide),
   c1_unicode_escape_completion.2.2.2.1 0xd83d 0xde0 '3' 3 (by decide) (by decide) (by decide)
     (by decide) (by decide),
   c1_unicode_escape_completion.2.2.2.2 0xd83d 0x004 '1' 1 (by decide) (by decide)⟩

/-- C2: a successful String::get returns the view over exactly the prefix up
to (but not including) the unescaped closing quote, with escapes left
verbatim (the machine scans the whole view without terminating, ending in
the In state), and the parent's remaining slice is the suffix right after
that quote; input that ends with the machine still parsing (no unescaped
closing quote) is the error UnexpectedEnd. -/
theorem c2_string_get_slices :
    (∀ (input : List Char) (ps : ParsedString) (rem : List Char),
      stringGet input = .Ok (ps, rem) →
      input = ps.unescaped ++ '"' :: rem ∧ strScan .In ps.unescaped = some .In) ∧
    (∀ (input : List Char) (m : StringMachine),
      strScan .In input = some m → stringGet input = .Error .UnexpectedEnd) := by
  constructor
  · intro input ps rem h
    simp only [stringGet] at h
    cases haux : stringGetAux .In input <;> rw [haux] at h
    case Error e => cases h
    case Panic => cases h
    case Ok pr =>
      obtain ⟨p, r⟩ := pr
      simp only [PResult.Ok.injEq, Prod.mk.injEq] at h
      obtain ⟨hp, hr⟩ := h
      subst hp; subst hr
      exact stringGetAux_ok haux
  · intro input m h
    simp only [stringGet]
    rw [strScan_unexpectedEnd h]

/-- C2 witness: a concrete successful parse and a concrete unterminated one. -/
theorem c2_witness :
    (['a', '"', 'b'] : List Char) =
      (⟨['a']⟩ : ParsedString).unescaped ++ '"' :: ['b'] ∧
    strScan .In (⟨['a']⟩ : ParsedString).unescaped = some .In ∧
    stringGet ['a'] = .Error .UnexpectedEnd :=
  ⟨(c2_string_get_slices.1 ['a', '"', 'b'] ⟨['a']⟩ ['b'] (by decide)).1,
   (c2_string_get_slices.1 ['a', '"', 'b'] ⟨['a']⟩ ['b'] (by decide)).2,
   c2_string_get_slices.2 ['a'] .In (by decide)⟩

/-- C8 counterexample: inside the four-hex-digit portion of the surrogate
chain, a non-hex character yields InvalidUnicodeEscape, not the
MissingLowSurrogate error the claim asserts for every deviation. -/
theorem c8_counterexample :
    EscapeMachine.apply (.Surrogate 0xd83d (.Hex 0 0)) 'z' =
      .Error (.InvalidUnicodeEscape 'z') ∧
    EscapeMachine.apply (.Surrogate 0xd83d (.Hex 0 0)) 'z' ≠
      .Error (.MissingLowSurrogate 0xd83d) := by
  decide

/-- C8 amended: in the surrogate chain, a deviation at the backslash or at
the u position produces MissingLowSurrogate with the recorded high half,
while a non-hex character inside the four-hex-digit portion produces
InvalidUnicodeEscape with the offending character. -/
theorem c8_amended_surrogate_chain :
    (∀ (high : Nat) (c : Char), c ≠ '\\' →
      EscapeMachine.apply (.Surrogate high .Awaiting) c =
        .Error (.MissingLowSurrogate high)) ∧
    (∀ (high : Nat) (c : Char), c ≠ 'u' →
      EscapeMachine.apply (.Surrogate high .AwaitingU) c =
        .Error (.MissingLowSurrogate high)) ∧
    (∀ (high low len : Nat) (c : Char), toDigit16 c = none →
      EscapeMachine.apply (.Surrogate high (.Hex low len)) c =
        .Error (.InvalidUnicodeEscape c)) := by
  refine ⟨?_, ?_, ?_⟩
  · intro high c hc
    simp [EscapeMachine.apply, LowMachine.apply, hc]
  · intro high c hc
    simp [EscapeMachine.apply, LowMachine.apply, hc]
  · intro high low len c hc
    simp [EscapeMachine.apply, LowMachine.apply, hc]

/-- C8 amended witness: concrete deviations at each position of the chain. -/
theorem c8_witness :
    EscapeMachine.apply (.Surrogate 0xd83d .Awaiting) 'x' =
      .Error (.MissingLowSurrogate 0xd83d) ∧
    EscapeMachine.apply (.Surrogate 0xd83d .AwaitingU) 'v' =
      .Error (.MissingLowSurrogate 0xd83d) ∧
    EscapeMachine.apply (.Surrogate 0xd83d (.Hex 0 1)) 'g' =
      .Error (.InvalidUnicodeEscape 'g') :=
  ⟨c8_amended_surrogate_chain.1 0xd83d 'x' (by decide),
   c8_amended_surrogate_chain.2.1 0xd83d 'v' (by decide),
   c8_amended_surrogate_chain.2.2 0xd83d 0 1 'g' (by decide)⟩

/-- C10: on the view returned by a successful String::get, driving the
decoding Chars iterator to exhaustion (fuel length + 1 always suffices,
since every step consumes at least one character) never reaches either
panic branch of Chars::next. -/
theorem c10_chars_never_panic (input : List Char) (ps : ParsedString) (rem : List Char)
    (h : stringGet input = .Ok (ps, rem)) :
    charsRun (ps.unescaped.length + 1) ps.unescaped = .AllOk := by
  have hscan : strScan .In ps.unescaped = some .In := by
    simp only [stringGet] at h
    cases haux : stringGetAux .In input <;> rw [haux] at h
    case Error e => cases h
    case Panic => cases h
    case Ok pr =>
      obtain ⟨p, r⟩ := pr
      simp only [PResult.Ok.injEq, Prod.mk.injEq] at h
      obtain ⟨hp, hr⟩ := h
      subst hp
      exact (stringGetAux_ok haux).2
  exact strScan_charsRun (Nat.lt_succ_self _) hscan

/-- C10 witness: a string body with an escape decodes to exhaustion. -/
theorem c10_witness :
    charsRun ((⟨['a', '\\', 'n']⟩ : ParsedString).unescaped.length + 1)
      (⟨['a', '\\', 'n']⟩ : ParsedString).unescaped = .AllOk :=
  c10_chars_never_panic ['a', '\\', 'n', '"', 'x'] ⟨['a', '\\', 'n']⟩ ['x'] (by decide)

/-! Helper lemmas about the number machine. -/

theorem numberGetAux_ok {input : List Char} : ∀ {m : NumberMachine} {p r : List Char},
    numberGetAux m input = .ok (p, r) →
    input = p ++ r ∧
    ∃ mf, numScan m p = some mf ∧
      ((r = [] ∧ mf.valid_end = .ok ()) ∨
        ∃ c rest, r = c :: rest ∧ mf.apply c = .ok (.Done ())) := by
  induction input with
  | nil =>
    intro m p r h
    simp only [numberGetAux] at h
    split at h
    · rename_i u heq
      simp only [Except.ok.injEq, Prod.mk.injEq] at h
      obtain ⟨hp, hr⟩ := h
      subst hp; subst hr
      refine ⟨rfl, m, rfl, Or.inl ⟨rfl, ?_⟩⟩
      cases u
      exact heq
    · cases h
  | cons c rest ih =>
    intro m p r h
    simp only [numberGetAux] at h
    split at h
    · cases h
    · rename_i u heq
      simp only [Except.ok.injEq, Prod.mk.injEq] at h
      obtain ⟨hp, hr⟩ := h
      subst hp; subst hr
      refine ⟨rfl, m, rfl, Or.inr ⟨c, rest, rfl, ?_⟩⟩
      cases u
      exact heq
    · rename_i m2 heq
      split at h
      · rename_i p2 r2 hrec
        simp only [Except.ok.injEq, Prod.mk.injEq] at h
        obtain ⟨hp, hr⟩ := h
        subst hp; subst hr
        obtain ⟨h1, mf, h2, h3⟩ := ih hrec
        subst h1
        refine ⟨rfl, mf, ?_, h3⟩
        simp only [numScan, heq]
        exact h2
      · cases h

/-! Claim theorems for the number machine. -/

/-- C3: on success, Number::get leaves the parent's remaining slice at the
terminating non-numeric character (which caused the machine to report Done
and was not consumed), or empty when the machine reached a valid end of
input, and the returned ParsedNumber's as_str is exactly the consumed
prefix of the original input. -/
theorem c3_number_get_slices (input : List Char) (pn : ParsedNumber) (rem : List Char)
    (h : numberGet input = .ok (pn, rem)) :
    pn.as_str ++ rem = input ∧
    ∃ mf, numScan (.Start false) pn.as_str = some mf ∧
      ((rem = [] ∧ mf.valid_end = .ok ()) ∨
        ∃ c rest, rem = c :: rest ∧ mf.apply c = .ok (.Done ())) := by
  simp only [numberGet] at h
  split at h
  · rename_i p r heq
    simp only [Except.ok.injEq, Prod.mk.injEq] at h
    obtain ⟨hp, hr⟩ := h
    subst hp; subst hr
    obtain ⟨h1, mf, h2, h3⟩ := numberGetAux_ok heq
    exact ⟨h1.symm, mf, h2, h3⟩
  · cases h

/-- C3 witness: parsing the number 1 terminated by a comma. -/
theorem c3_witness :
    (⟨['1']⟩ : ParsedNumber).as_str ++ [','] = ['1', ','] ∧
    ∃ mf, numScan (.Start false) (⟨['1']⟩ : ParsedNumber).as_str = some mf ∧
      (([','] = ([] : List Char) ∧ mf.valid_end = .ok ()) ∨
        ∃ c rest, [','] = c :: rest ∧ mf.apply c = .ok (.Done ())) :=
  c3_number_get_slices ['1', ','] ⟨['1']⟩ [','] (by decide)

/-- C9: on end of input, valid_end accepts InInteger, PostInteger, Fraction
and Exponent; Start and PreFraction give UnexpectedEnd and PreExponent
gives UnexpectedEndAfterExponent, with or_sign true exactly when the state
has not yet consumed a sign (and always false for PreFraction); Number::get
consults valid_end exactly when the input is exhausted. -/
theorem c9_number_valid_end :
    NumberMachine.valid_end .InInteger = .ok () ∧
    NumberMachine.valid_end .PostInteger = .ok () ∧
    NumberMachine.valid_end .Fraction = .ok () ∧
    NumberMachine.valid_end .Exponent = .ok () ∧
    (∀ signed : Bool,
      NumberMachine.valid_end (.Start signed) = .error (.UnexpectedEnd !signed)) ∧
    NumberMachine.valid_end .PreFraction = .error (.UnexpectedEnd false) ∧
    (∀ signed : Bool,
      NumberMachine.valid_end (.PreExponent signed) =
        .error (.UnexpectedEndAfterExponent !signed)) ∧
    (∀ m : NumberMachine, numberGetAux m [] =
      match m.valid_end with
      | .ok _ => .ok ([], [])
      | .error e => .error e) :=
  ⟨rfl, rfl, rfl, rfl, fun _ => rfl, rfl, fun _ => rfl, fun _ => rfl⟩

/-- C4: the PostInteger state (entered on a leading zero) reports Done on
every further digit, so the digit is not consumed as part of the number;
consequently the document 01 yields the number 0 and then the error
UnexpectedCharacter on the left-over digit 1. -/
theorem c4_leading_zero_rejected :
    (∀ c : Char, '0' ≤ c → c ≤ '9' →
      NumberMachine.apply .PostInteger c = .ok (.Done ())) ∧
    docNext ⟨['0', '1'], none⟩ = .Yield .Number ⟨['0', '1'], some (.Prompted .Number)⟩ ∧
    numberGet ['0', '1'] = .ok (⟨['0']⟩, ['1']) ∧
    docSetRemaining ⟨['0', '1'], some (.Prompted .Number)⟩ ['1'] = ⟨['1'], some .Done⟩ ∧
    docNext ⟨['1'], some .Done⟩ =
      .Error (.UnexpectedCharacter '1') ⟨['1'], some .Done⟩ := by
  refine ⟨?_, by decide, by decide, by decide, by decide⟩
  intro c h0 h9
  have hdot : c ≠ '.' := fun hc => absurd h0 (by subst hc; decide)
  have he : c ≠ 'e' := fun hc => absurd h9 (by subst hc; decide)
  have hE : c ≠ 'E' := fun hc => absurd h9 (by subst hc; decide)
  simp [NumberMachine.apply, hdot, he, hE]

/-- C4 witness: a concrete digit after PostInteger ends the number. -/
theorem c4_witness : NumberMachine.apply .PostInteger '5' = .ok (.Done ()) :=
  c4_leading_zero_rejected.1 '5' (by decide) (by decide)

/-! Claim theorems for the containers and the document driver. -/

/-- C5: a closing bracket or brace read in the post-comma In state yields
TrailingComma, and the full walks of the documents [1,] and {"a":1,}
(document next; container next; number get; set_remaining hand-back;
container next again) both end in the TrailingComma error. -/
theorem c5_trailing_comma :
    ArrayMachine.apply (.In true) ']' = .Error .TrailingComma ∧
    ObjectMachine.apply (.In true) '}' = .Error .TrailingComma ∧
    docNext ⟨['[', '1', ',', ']'], none⟩ =
      .Yield .Array ⟨['1', ',', ']'], some (.Prompted .Array)⟩ ∧
    arrayNext ⟨.In false, ['1', ',', ']']⟩ =
      .Yield .Number ⟨.Element (.Prompted .Number), ['1', ',', ']']⟩ ∧
    numberGet ['1', ',', ']'] = .ok (⟨['1']⟩, [',', ']']) ∧
    arraySetRemaining ⟨.Element (.Prompted .Number), ['1', ',', ']']⟩ [',', ']'] =
      ⟨.Element .Done, [',', ']']⟩ ∧
    arrayNext ⟨.Element .Done, [',', ']']⟩ = .Error .TrailingComma ⟨.In true, [']']⟩ ∧
    docNext ⟨['{', '"', 'a', '"', ':', '1', ',', '}'], none⟩ =
      .Yield .Object ⟨['"', 'a', '"', ':', '1', ',', '}'], some (.Prompted .Object)⟩ ∧
    objectNext ⟨.In false, ['"', 'a', '"', ':', '1', ',', '}']⟩ =
      .Yield ⟨['a']⟩ .Number ⟨.Element ⟨['a']⟩ (.Prompted .Number), ['1', ',', '}']⟩ ∧
    numberGet ['1', ',', '}'] = .ok (⟨['1']⟩, [',', '}']) ∧
    objectSetRemaining ⟨.Element ⟨['a']⟩ (.Prompted .Number), ['1', ',', '}']⟩ [',', '}'] =
      ⟨.Element ⟨['a']⟩ .Done, [',', '}']⟩ ∧
    objectNext ⟨.Element ⟨['a']⟩ .Done, [',', '}']⟩ =
      .Error .TrailingComma ⟨.In true, ['}']⟩ := by
  decide

theorem docGo_ws_skip : ∀ (ws l : List Char), (∀ w ∈ ws, rustIsWhitespace w = true) →
    docGo true (ws ++ l) = docGo true l := by
  intro ws
  induction ws with
  | nil => intro l _; rfl
  | cons w t ih =>
    intro l hws
    have hw : rustIsWhitespace w = true := hws w (List.mem_cons_self w t)
    simp only [List.cons_append, docGo, hw, if_true]
    exact ih l fun x hx => hws x (List.mem_cons_of_mem w hx)

/-- C6: the document driver yields at most one value: on empty input the
first next is UnexpectedEnd; once the value is Done, next skips whitespace
and fails with UnexpectedCharacter at the first non-whitespace character,
or returns None (Finished) when only whitespace remains. -/
theorem c6_document_zero_or_one :
    docNext ⟨[], none⟩ = .Error .UnexpectedEnd ⟨[], none⟩ ∧
    (∀ (ws : List Char) (c : Char) (rest : List Char),
      (∀ w ∈ ws, rustIsWhitespace w = true) → rustIsWhitespace c = false →
      docNext ⟨ws ++ c :: rest, some .Done⟩ =
        .Error (.UnexpectedCharacter c) ⟨c :: rest, some .Done⟩) ∧
    (∀ rem : List Char, (∀ w ∈ rem, rustIsWhitespace w = true) →
      docNext ⟨rem, some .Done⟩ = .Finished ⟨[], some .Done⟩) := by
  refine ⟨rfl, ?_, ?_⟩
  · intro ws c rest hws hc
    show docGo true (ws ++ c :: rest) = _
    rw [docGo_ws_skip ws (c :: rest) hws]
    simp [docGo, hc]
  · intro rem h
    show docGo true rem = _
    have := docGo_ws_skip rem [] h
    rw [List.append_nil] at this
    rw [this]
    rfl

/-- C6 witness: whitespace then a stray character, and whitespace only. -/
theorem c6_witness :
    docNext ⟨[' ', 'x'], some .Done⟩ = .Error (.UnexpectedCharacter 'x') ⟨['x'], some .Done⟩ ∧
    docNext ⟨[' '], some .Done⟩ = .Finished ⟨[], some .Done⟩ :=
  ⟨c6_document_zero_or_one.2.1 [' '] 'x' [] (by decide) (by decide),
   c6_document_zero_or_one.2.2 [' '] (by decide)⟩

theorem arrayNext_nonleaf {m : ArrayMachine} {rem : List Char}
    (hP : ∀ p, m ≠ .Element (.Prompted p)) (hE : m ≠ .End) :
    arrayNext ⟨m, rem⟩ = arrayGo m rem := by
  cases m with
  | In pc => rfl
  | End => exact absurd rfl hE
  | Element status =>
    cases status with
    | Prompted p => exact absurd rfl (hP p)
    | Done => rfl

theorem arrayGo_error_stable : ∀ (rem : List Char) (m : ArrayMachine)
    (e : ParseArrayError) (st : ArrayState),
    (∀ p, m ≠ .Element (.Prompted p)) → m ≠ .End →
    arrayGo m rem = .Error e st →
    arrayNext st = .Error e st ∧
    (st.remaining = [] ∧ e = .UnexpectedEnd ∨
      ∃ c rest, st.remaining = c :: rest ∧ st.machine.apply c = .Error e) := by
  intro rem
  induction rem with
  | nil =>
    intro m e st hP hE h
    simp only [arrayGo] at h
    cases h
    constructor
    · rw [arrayNext_nonleaf hP hE]
      simp [arrayGo]
    · exact Or.inl ⟨rfl, rfl⟩
  | cons c rest ih =>
    intro m e st hP hE h
    simp only [arrayGo] at h
    split at h
    · cases h
    · rename_i e0 heq
      cases h
      constructor
      · rw [arrayNext_nonleaf hP hE]
        simp only [arrayGo, heq]
      · exact Or.inr ⟨c, rest, rfl, heq⟩
    · rename_i m2 heq
      split at h
      · split at h <;> cases h
      · cases h
      · exact ih _ e st (fun p hp => by cases hp) (by intro hh; cases hh) h
      · exact ih _ e st (fun p hp => by cases hp) (by intro hh; cases hh) h

/-- C7: when Array::next returns an error, the state it leaves behind has
its remaining slice beginning at the offending character (or empty for
UnexpectedEnd) and is a fixed point: calling next again returns the very
same error with the same state. -/
theorem c7_array_error_stable (st : ArrayState) (e : ParseArrayError) (st2 : ArrayState)
    (h : arrayNext st = .Error e st2) :
    arrayNext st2 = .Error e st2 ∧
    (st2.remaining = [] ∧ e = .UnexpectedEnd ∨
      ∃ c rest, st2.remaining = c :: rest ∧ st2.machine.apply c = .Error e) := by
  obtain ⟨m, rem⟩ := st
  cases m with
  | In pc =>
    exact arrayGo_error_stable rem (.In pc) e st2 (fun p hp => by cases hp)
      (by intro hh; cases hh) h
  | End => simp [arrayNext] at h
  | Element status =>
    cases status with
    | Prompted p => simp [arrayNext] at h
    | Done =>
      exact arrayGo_error_stable rem (.Element .Done) e st2 (fun p hp => by cases hp)
        (by intro hh; cases hh) h

/-- C7 witness: the trailing-comma error state reproduces itself. -/
theorem c7_witness :
    arrayNext ⟨.In true, [']']⟩ = .Error .TrailingComma ⟨.In true, [']']⟩ ∧
    ((⟨.In true, [']']⟩ : ArrayState).remaining = [] ∧
        ParseArrayError.TrailingComma = .UnexpectedEnd ∨
      ∃ c rest, (⟨.In true, [']']⟩ : ArrayState).remaining = c :: rest ∧
        (⟨.In true, [']']⟩ : ArrayState).machine.apply c = .Error .TrailingComma) :=
  c7_array_error_stable ⟨.In true, [']']⟩ .TrailingComma ⟨.In true, [']']⟩ (by decide)

end Zjson
